import Mathlib

/-!
Shallow embedding of the MTGJSON database manager (mtgdb_manager.py):
the Set/Card store, the AllPrintings ingest pipeline (process_allprintings,
process_file), the transfer fetcher (download_file), the catalog
synchronizer (fetch_mtgjson_files) and the list-file line parser from main.
Machine-level concerns (SQLite, threads, the real filesystem and network)
are abstracted: the committed database is an explicit value, file and
network contents are inputs, and effects (GET requests, file removals and
writes) are recorded as booleans in the results.
-/

set_option autoImplicit false

/-- Row of the sets table: code is the primary key; name and release_date
come from the JSON payload and may be absent (Python None). -/
structure SetRow where
  code : String
  name : Option String
  release_date : Option String
deriving DecidableEq, Repr

/-- Row of the cards table: uuid is the primary key (absent key modelled as
none); set_code is the foreign key into the sets table. -/
structure CardRow where
  uuid : Option String
  name : Option String
  type_ : Option String
  rarity : Option String
  text : Option String
  set_code : String
deriving DecidableEq, Repr

/-- Parsed card object of an AllPrintings payload (the fields
process_allprintings reads via card_data.get). -/
structure CardData where
  uuid : Option String
  name : Option String
  type_ : Option String
  rarity : Option String
  text : Option String
deriving DecidableEq, Repr

/-- Parsed set object of an AllPrintings payload (the fields
process_allprintings reads via set_data.get). -/
structure SetData where
  name : Option String
  releaseDate : Option String
  cards : List CardData
deriving DecidableEq, Repr

/-- Parsed AllPrintings payload: the items of data.get('data', {}),
in iteration order. -/
abbrev Dataset := List (String × SetData)

/-- Committed state of the card database: the rows of the sets and cards
tables, in insertion order. -/
structure DB where
  sets : List SetRow
  cards : List CardRow
deriving DecidableEq, Repr

/-- Database with no rows at all. -/
def emptyDB : DB := ⟨[], []⟩

/-- Set row built by process_allprintings for one entry of the payload. -/
def setRowOf (code : String) (sd : SetData) : SetRow :=
  ⟨code, sd.name, sd.releaseDate⟩

/-- Card row built by process_allprintings for one card of a set. -/
def cardRowOf (code : String) (cd : CardData) : CardRow :=
  ⟨cd.uuid, cd.name, cd.type_, cd.rarity, cd.text, code⟩

/-- Upsert of a set row by primary key code (session.merge(set_entry)):
if a row with the same code exists it is overwritten in place, otherwise
the row is appended. -/
def mergeSetRow (db : DB) (s : SetRow) : DB :=
  if ∃ y ∈ db.sets, y.code = s.code then
    { db with sets := db.sets.map fun y => if y.code = s.code then s else y }
  else
    { db with sets := db.sets ++ [s] }

/-- Upsert of a card row by primary key uuid (session.merge(card_entry)). -/
def mergeCardRow (db : DB) (c : CardRow) : DB :=
  if ∃ y ∈ db.cards, y.uuid = c.uuid then
    { db with cards := db.cards.map fun y => if y.uuid = c.uuid then c else y }
  else
    { db with cards := db.cards ++ [c] }

/-- Inner loop of process_allprintings: merge every card of one set,
in payload order, with set_code equal to that set's key. -/
def applyCards (db : DB) (code : String) (cds : List CardData) : DB :=
  cds.foldl (fun acc cd => mergeCardRow acc (cardRowOf code cd)) db

/-- Body of process_allprintings for one payload entry: merge the set row,
then all of its card rows. -/
def applyEntry (db : DB) (p : String × SetData) : DB :=
  applyCards (mergeSetRow db (setRowOf p.1 p.2)) p.1 p.2.cards

/-- Both loops of process_allprintings over the whole payload. -/
def applyData (db : DB) (d : Dataset) : DB :=
  d.foldl applyEntry db

/-- Embedding of process_allprintings: json.load either fails (none) before
any row is merged, or yields the whole payload; all merges are staged and
committed once at the end, so the committed state is either unchanged
(parse failure, exception propagates: result none) or the fully merged
state. -/
def process_allprintings (payload : Option Dataset) (db : DB) : Option DB :=
  match payload with
  | none => none
  | some d => some (applyData db d)

/-- Whitespace test of Python str.strip for the ASCII range. -/
def pyIsSpace (c : Char) : Bool :=
  c == ' ' || c == '\t' || c == '\n' || c == '\r' || c == '\x0b' || c == '\x0c'

/-- Python str.strip(): drop leading and trailing whitespace. -/
def pyStrip (s : String) : String :=
  String.mk (((s.data.dropWhile pyIsSpace).reverse.dropWhile pyIsSpace).reverse)

/-- Python str.lower() for the ASCII strings the manager compares. -/
def pyLower (s : String) : String :=
  String.mk (s.data.map Char.toLower)

/-- Python str.endswith(suffix). -/
def pyEndsWith (s suffix : String) : Bool :=
  suffix.data.isSuffixOf s.data

/-- Python s.split(sep, 1) at the character level: none when sep does not
occur, otherwise the parts before and after its first occurrence. -/
def splitFirstAux (sep : Char) : List Char → Option (List Char × List Char)
  | [] => none
  | c :: rest =>
    if c = sep then some ([], rest)
    else (splitFirstAux sep rest).map (fun p => (c :: p.1, p.2))

/-- Python path.split('/')[-1]: the characters after the last slash
(the whole string when no slash occurs). -/
def lastComponent (p : String) : String :=
  String.mk (p.data.foldl (fun acc c => if c = '/' then [] else acc ++ [c]) [])

/-- Observable outcome of process_file: the committed database when the call
returns (or when its exception escapes), whether an exception escaped, and
which cleanup removals ran. -/
structure ProcessResult where
  db : DB
  raised : Bool
  removed_file : Bool
  removed_extracted : Bool
deriving DecidableEq, Repr

/-- Embedding of process_file. Inputs stand for what the real call reads
from disk: zipContents is the name list of the archive (used only when
file_path ends in .zip), payload is the parsed JSON (none when json.load
would raise). A .zip with no .json member returns early before any branch
or cleanup. For the canonical category the Card and Set deletes are
committed on their own before process_allprintings runs; any other
category leaves the store untouched. Cleanup removes the downloaded file
and, for an archive, the extracted member, but is skipped when the
exception from a failed parse propagates. -/
def process_file (file_path : String) (zipContents : List String)
    (category : String) (payload : Option Dataset) (db : DB) : ProcessResult :=
  if pyEndsWith file_path ".zip" && (zipContents.filter (fun f => pyEndsWith f ".json")).isEmpty then
    ⟨db, false, false, false⟩
  else if pyLower category = "allprintings" then
    match process_allprintings payload emptyDB with
    | none => ⟨emptyDB, true, false, false⟩
    | some db2 => ⟨db2, false, true, pyEndsWith file_path ".zip"⟩
  else
    ⟨db, false, true, pyEndsWith file_path ".zip"⟩

/-- Condition under which process_file reaches its category dispatch: the
artifact is not an archive, or the archive has a .json member. -/
def jsonReady (file_path : String) (zipContents : List String) : Bool :=
  !(pyEndsWith file_path ".zip") || !(zipContents.filter (fun f => pyEndsWith f ".json")).isEmpty

/-- Merge-operation trace element of process_allprintings: one
session.merge call, either of a set row or of a card row. -/
inductive Op where
  | mset (s : SetRow)
  | mcard (c : CardRow)
deriving DecidableEq, Repr

/-- Effect of one merge operation on the staged database state. -/
def applyOp (db : DB) : Op → DB
  | Op.mset s => mergeSetRow db s
  | Op.mcard c => mergeCardRow db c

/-- Merge-operation trace of process_allprintings over a payload: for each
payload entry, the set merge followed by that set's card merges, in
program order. -/
def opsOf (d : Dataset) : List Op :=
  d.flatMap fun p =>
    Op.mset (setRowOf p.1 p.2) :: p.2.cards.map (fun cd => Op.mcard (cardRowOf p.1 cd))

/-- Every card merge in the trace is preceded by a set merge bearing the
card's set_code: seen accumulates the codes of the set rows merged so far. -/
def guardedAux (seen : List String) : List Op → Prop
  | [] => True
  | Op.mset s :: rest => guardedAux (s.code :: seen) rest
  | Op.mcard c :: rest => c.set_code ∈ seen ∧ guardedAux seen rest

/-- Outcome of the metadata-only HEAD request in download_file: the request
raised, the response had no parseable last-modified header, or it carried
the remote's last-modified timestamp. -/
inductive HeadOutcome where
  | fail
  | noHeader
  | modified (t : Int)
deriving DecidableEq, Repr

/-- Outcome of the streaming GET request in download_file: transport error
(requests.get or raise_for_status raised) or success. -/
inductive GetOutcome where
  | fail
  | ok
deriving DecidableEq, Repr

/-- Boolean success test of a GET outcome. -/
def GetOutcome.isOk : GetOutcome → Bool
  | GetOutcome.fail => false
  | GetOutcome.ok => true

/-- Observable outcome of download_file: whether a GET request was issued,
whether the existing destination file was removed, whether the destination
was written, and the returned boolean. -/
structure FetchResult where
  didGet : Bool
  removed : Bool
  written : Bool
  ret : Bool
deriving DecidableEq, Repr

/-- Freshness decision of download_file. existing_time is
check_file_exists on the destination (none when the file does not exist,
otherwise its mtime); the Python guard existing_time and not force_update
treats an mtime of exactly 0 as falsy, skipping the freshness check, and
the check succeeds when the HEAD request produced a last-modified
timestamp not newer than the local file's. -/
def freshSkip (existing_time : Option Int) (force_update : Bool)
    (head : HeadOutcome) : Bool :=
  match existing_time, force_update with
  | some t, false =>
    if t = 0 then false
    else
      match head with
      | HeadOutcome.modified remote_time => decide (remote_time ≤ t)
      | _ => false
  | _, _ => false

/-- Remainder of download_file after the freshness decision: when the file
is current it returns False with no GET, removal or write; otherwise it
issues the GET, and on success removes any existing destination file,
writes the body and returns True, while on transport error it returns
False without touching the filesystem. -/
def download_file (existing_time : Option Int) (force_update : Bool)
    (head : HeadOutcome) (get : GetOutcome) : FetchResult :=
  if freshSkip existing_time force_update head then
    ⟨false, false, false, false⟩
  else
    match get with
    | GetOutcome.fail => ⟨true, false, false, false⟩
    | GetOutcome.ok => ⟨true, existing_time.isSome, true, true⟩

/-- Stored link row (the Link model): id is the primary key. -/
structure LinkRow where
  id : String
  category : String
  url : String
  file_type : String
  description : String
deriving DecidableEq, Repr

/-- Entry of data.paths in the remote Meta.json document, as read by
fetch_mtgjson_files: endpoint.get('path') and endpoint.get('description', ''). -/
structure MetaEndpoint where
  path : Option String
  description : String
deriving DecidableEq, Repr

/-- Loop body of fetch_mtgjson_files for one endpoint of the metadata
document: entries whose path is missing or empty are skipped (Python
falsiness); a remaining path extends the accumulated list with a json link
and a zip link, with id equal to the path plus extension, category equal
to the last path component, and url equal to the base joined with the path
plus extension. -/
def linkStep (base : String) (files : List LinkRow) (ep : MetaEndpoint) : List LinkRow :=
  match ep.path with
  | none => files
  | some path =>
    if path = "" then files
    else
      files ++
        [⟨path ++ ".json", lastComponent path, base ++ path ++ ".json", "json", ep.description⟩,
         ⟨path ++ ".json.zip", lastComponent path, base ++ path ++ ".json.zip", "zip", ep.description⟩]

/-- Embedding of the descriptor-building loop of fetch_mtgjson_files over
the parsed metadata document. -/
def fetch_mtgjson_files (base : String) (paths : List MetaEndpoint) : List LinkRow :=
  paths.foldl (linkStep base) []

/-- Action main takes for one line of a download list file: ignored
(blank or comment), warned about (invalid format), or turned into one
download work item. -/
inductive LineAction where
  | skip
  | warn
  | work (category : String) (url : String)
deriving DecidableEq, Repr

/-- Embedding of the per-line handling in main's list-file loop: strip the
line; ignore it when empty or starting with '#'; split it at the first
comma (line.split(',', 1)); with no comma present warn and skip, otherwise
strip both parts into a (category, url) work item. -/
def processLine (raw : String) : LineAction :=
  let line := pyStrip raw
  if line = "" then LineAction.skip
  else if line.data.head? = some '#' then LineAction.skip
  else
    match splitFirstAux ',' line.data with
    | none => LineAction.warn
    | some p => LineAction.work (pyStrip (String.mk p.1)) (pyStrip (String.mk p.2))

/-- Accumulation step of main's list-file loop: a work item spawns one
download thread, an invalid line increments the count of printed warnings. -/
def downloadStep (acc : List (String × String) × Nat) (raw : String) :
    List (String × String) × Nat :=
  match processLine raw with
  | LineAction.skip => acc
  | LineAction.warn => (acc.1, acc.2 + 1)
  | LineAction.work c u => (acc.1 ++ [(c, u)], acc.2)

/-- Whole list-file loop of main: the (category, url) work items spawned,
in order, and the number of invalid-format warnings printed. -/
def download_lines (lines : List String) : List (String × String) × Nat :=
  lines.foldl downloadStep ([], 0)

/-- Set codes of a payload, in iteration order. -/
def dataCodes (d : Dataset) : List String := d.map Prod.fst

/-- Card uuids of a payload, in iteration order. -/
def dataUuids (d : Dataset) : List (Option String) :=
  d.flatMap fun p => p.2.cards.map CardData.uuid

/-- Validity of a canonical payload: set codes are globally unique and so
are card uuids (the uniqueness the schema declares for the primary keys). -/
def validDataset (d : Dataset) : Prop :=
  (dataCodes d).Nodup ∧ (dataUuids d).Nodup

instance decValidDataset (d : Dataset) : Decidable (validDataset d) :=
  inferInstanceAs (Decidable ((dataCodes d).Nodup ∧ (dataUuids d).Nodup))

/-- Classification of a list-file line that yields a work item: nonblank,
not a comment, and containing a separator. -/
def isValidLine (raw : String) : Bool :=
  let l := pyStrip raw
  !(l == "") && !(l.data.head? == some '#') && l.data.contains ','

/-- Classification of a list-file line that draws a warning: nonblank, not
a comment, and containing no separator at all. -/
def isMalformedLine (raw : String) : Bool :=
  let l := pyStrip raw
  !(l == "") && !(l.data.head? == some '#') && !(l.data.contains ',')

theorem mergeCardRow_sets (db : DB) (c : CardRow) :
    (mergeCardRow db c).sets = db.sets := by
  unfold mergeCardRow; split <;> rfl

theorem mergeSetRow_cards (db : DB) (s : SetRow) :
    (mergeSetRow db s).cards = db.cards := by
  unfold mergeSetRow; split <;> rfl

theorem mergeSetRow_absent (db : DB) (s : SetRow)
    (h : ∀ y ∈ db.sets, y.code ≠ s.code) :
    mergeSetRow db s = { db with sets := db.sets ++ [s] } := by
  unfold mergeSetRow
  rw [if_neg]
  rintro ⟨y, hy, hcode⟩
  exact h y hy hcode

theorem mergeCardRow_absent (db : DB) (c : CardRow)
    (h : ∀ y ∈ db.cards, y.uuid ≠ c.uuid) :
    mergeCardRow db c = { db with cards := db.cards ++ [c] } := by
  unfold mergeCardRow
  rw [if_neg]
  rintro ⟨y, hy, huuid⟩
  exact h y hy huuid

theorem applyCards_cons (db : DB) (code : String) (cd : CardData) (cds : List CardData) :
    applyCards db code (cd :: cds) = applyCards (mergeCardRow db (cardRowOf code cd)) code cds := rfl

theorem applyCards_sets (db : DB) (code : String) (cds : List CardData) :
    (applyCards db code cds).sets = db.sets := by
  induction cds generalizing db with
  | nil => rfl
  | cons cd rest ih =>
    rw [applyCards_cons, ih, mergeCardRow_sets]

theorem applyData_cons (db : DB) (p : String × SetData) (d : Dataset) :
    applyData db (p :: d) = applyData (applyEntry db p) d := rfl

theorem applyCards_fresh (db : DB) (code : String) (cds : List CardData)
    (h : ∀ cd ∈ cds, ∀ y ∈ db.cards, y.uuid ≠ cd.uuid)
    (hn : (cds.map CardData.uuid).Nodup) :
    applyCards db code cds = { db with cards := db.cards ++ cds.map (cardRowOf code) } := by
  induction cds generalizing db with
  | nil => simp [applyCards]
  | cons cd rest ih =>
    rw [applyCards_cons,
        mergeCardRow_absent db (cardRowOf code cd) (fun y hy => h cd (by simp) y hy)]
    rw [List.map_cons, List.nodup_cons] at hn
    rw [ih]
    · simp
    · intro cd' hcd' y hy
      rcases List.mem_append.mp hy with hdb | hsingle
      · exact h cd' (by simp [hcd']) y hdb
      · rcases List.mem_singleton.mp hsingle with rfl
        show cd.uuid ≠ cd'.uuid
        intro hcontra
        exact hn.1 (hcontra ▸ List.mem_map_of_mem CardData.uuid hcd')
    · exact hn.2

theorem dataUuids_cons (p : String × SetData) (d : Dataset) :
    dataUuids (p :: d) = p.2.cards.map CardData.uuid ++ dataUuids d := by
  simp [dataUuids]

theorem dataCodes_cons (p : String × SetData) (d : Dataset) :
    dataCodes (p :: d) = p.1 :: dataCodes d := rfl

theorem applyData_fresh (d : Dataset) (db : DB)
    (hcf : ∀ p ∈ d, ∀ y ∈ db.sets, y.code ≠ p.1)
    (hcn : (dataCodes d).Nodup)
    (huf : ∀ u ∈ dataUuids d, ∀ y ∈ db.cards, y.uuid ≠ u)
    (hun : (dataUuids d).Nodup) :
    applyData db d =
      ⟨db.sets ++ d.map (fun p => setRowOf p.1 p.2),
       db.cards ++ d.flatMap (fun p => p.2.cards.map (cardRowOf p.1))⟩ := by
  induction d generalizing db with
  | nil => simp [applyData]
  | cons p rest ih =>
    rw [dataCodes_cons, List.nodup_cons] at hcn
    rw [dataUuids_cons, List.nodup_append] at hun
    rw [applyData_cons]
    have hset : mergeSetRow db (setRowOf p.1 p.2) = { db with sets := db.sets ++ [setRowOf p.1 p.2] } :=
      mergeSetRow_absent db _ (fun y hy => hcf p (by simp) y hy)
    have hcards : applyCards (mergeSetRow db (setRowOf p.1 p.2)) p.1 p.2.cards =
        ⟨db.sets ++ [setRowOf p.1 p.2], db.cards ++ p.2.cards.map (cardRowOf p.1)⟩ := by
      rw [hset, applyCards_fresh]
      · intro cd hcd y hy
        exact huf cd.uuid (by rw [dataUuids_cons]; exact List.mem_append_left _ (List.mem_map_of_mem _ hcd)) y hy
      · exact hun.1
    show applyData (applyEntry db p) rest = _
    rw [applyEntry, hcards]
    rw [ih ⟨db.sets ++ [setRowOf p.1 p.2], db.cards ++ p.2.cards.map (cardRowOf p.1)⟩]
    · simp
    · intro q hq y hy
      rcases List.mem_append.mp hy with hdb | hsingle
      · exact hcf q (by simp [hq]) y hdb
      · rcases List.mem_singleton.mp hsingle with rfl
        show p.1 ≠ q.1
        intro hcontra
        exact hcn.1 (hcontra ▸ List.mem_map_of_mem Prod.fst hq)
    · exact hcn.2
    · intro u hu y hy
      rcases List.mem_append.mp hy with hdb | hnew
      · exact huf u (by rw [dataUuids_cons]; exact List.mem_append_right _ hu) y hdb
      · rcases List.mem_map.mp hnew with ⟨cd, hcd, rfl⟩
        show cd.uuid ≠ u
        intro hcontra
        exact hun.2.2 (hcontra ▸ List.mem_map_of_mem CardData.uuid hcd) hu
    · exact hun.2.1

theorem applyData_of_valid (d : Dataset) (hv : validDataset d) :
    applyData emptyDB d =
      ⟨d.map (fun p => setRowOf p.1 p.2),
       d.flatMap (fun p => p.2.cards.map (cardRowOf p.1))⟩ := by
  have := applyData_fresh d emptyDB (by intro p _ y hy; simp [emptyDB] at hy)
    hv.1 (by intro u _ y hy; simp [emptyDB] at hy) hv.2
  simpa [emptyDB] using this

theorem codes_map_replace (l : List SetRow) (s : SetRow) :
    (l.map fun y => if y.code = s.code then s else y).map SetRow.code = l.map SetRow.code := by
  induction l with
  | nil => rfl
  | cons y rest ih =>
    simp only [List.map_cons, ih]
    by_cases h : y.code = s.code
    · simp [h]
    · simp [h]

theorem uuids_map_replace (l : List CardRow) (c : CardRow) :
    (l.map fun y => if y.uuid = c.uuid then c else y).map CardRow.uuid = l.map CardRow.uuid := by
  induction l with
  | nil => rfl
  | cons y rest ih =>
    simp only [List.map_cons, ih]
    by_cases h : y.uuid = c.uuid
    · simp [h]
    · simp [h]

theorem codes_nodup_mergeSetRow (db : DB) (s : SetRow)
    (h : (db.sets.map SetRow.code).Nodup) :
    ((mergeSetRow db s).sets.map SetRow.code).Nodup := by
  unfold mergeSetRow
  split
  · rw [codes_map_replace]; exact h
  · rename_i habs
    simp only [List.map_append, List.map_cons, List.map_nil]
    rw [List.nodup_append]
    refine ⟨h, List.nodup_singleton _, ?_⟩
    intro a ha hb
    rcases List.mem_singleton.mp hb with rfl
    rcases List.mem_map.mp ha with ⟨y, hy, hcode⟩
    exact habs ⟨y, hy, hcode⟩

theorem uuids_nodup_mergeCardRow (db : DB) (c : CardRow)
    (h : (db.cards.map CardRow.uuid).Nodup) :
    ((mergeCardRow db c).cards.map CardRow.uuid).Nodup := by
  unfold mergeCardRow
  split
  · rw [uuids_map_replace]; exact h
  · rename_i habs
    simp only [List.map_append, List.map_cons, List.map_nil]
    rw [List.nodup_append]
    refine ⟨h, List.nodup_singleton _, ?_⟩
    intro a ha hb
    rcases List.mem_singleton.mp hb with rfl
    rcases List.mem_map.mp ha with ⟨y, hy, huuid⟩
    exact habs ⟨y, hy, huuid⟩

theorem nodup_applyCards (db : DB) (code : String) (cds : List CardData)
    (hs : (db.sets.map SetRow.code).Nodup) (hc : (db.cards.map CardRow.uuid).Nodup) :
    ((applyCards db code cds).sets.map SetRow.code).Nodup ∧
      ((applyCards db code cds).cards.map CardRow.uuid).Nodup := by
  induction cds generalizing db with
  | nil => exact ⟨hs, hc⟩
  | cons cd rest ih =>
    rw [applyCards_cons]
    exact ih _ (by rw [mergeCardRow_sets]; exact hs) (uuids_nodup_mergeCardRow db _ hc)

theorem nodup_applyData (d : Dataset) (db : DB)
    (hs : (db.sets.map SetRow.code).Nodup) (hc : (db.cards.map CardRow.uuid).Nodup) :
    ((applyData db d).sets.map SetRow.code).Nodup ∧
      ((applyData db d).cards.map CardRow.uuid).Nodup := by
  induction d generalizing db with
  | nil => exact ⟨hs, hc⟩
  | cons p rest ih =>
    rw [applyData_cons]
    exact ih _
      (by rw [applyEntry, applyCards_sets]; exact codes_nodup_mergeSetRow db _ hs)
      (by
        rw [applyEntry]
        exact (nodup_applyCards _ _ _ (codes_nodup_mergeSetRow db _ hs)
          (by rw [mergeSetRow_cards]; exact hc)).2)

theorem jsonReady_iff (fp : String) (zc : List String) :
    jsonReady fp zc = true ↔
      (pyEndsWith fp ".zip" && (zc.filter (fun f => pyEndsWith f ".json")).isEmpty) = false := by
  unfold jsonReady
  cases pyEndsWith fp ".zip" <;>
    cases (zc.filter (fun f => pyEndsWith f ".json")).isEmpty <;> simp

theorem process_file_canonical (fp : String) (zc : List String) (cat : String)
    (d : Dataset) (db : DB)
    (hcat : pyLower cat = "allprintings") (hj : jsonReady fp zc = true) :
    process_file fp zc cat (some d) db =
      ⟨applyData emptyDB d, false, true, pyEndsWith fp ".zip"⟩ := by
  unfold process_file
  rw [(jsonReady_iff fp zc).mp hj]
  simp only [Bool.false_eq_true, if_false, hcat, if_pos rfl]
  rfl

theorem process_file_canonical_fail (fp : String) (zc : List String) (cat : String)
    (db : DB) (hcat : pyLower cat = "allprintings") (hj : jsonReady fp zc = true) :
    process_file fp zc cat none db = ⟨emptyDB, true, false, false⟩ := by
  unfold process_file
  rw [(jsonReady_iff fp zc).mp hj]
  simp only [Bool.false_eq_true, if_false, hcat, if_pos rfl]
  rfl

theorem process_file_other (fp : String) (zc : List String) (cat : String)
    (p : Option Dataset) (db : DB) (hcat : pyLower cat ≠ "allprintings") :
    (process_file fp zc cat p db).db = db ∧ (process_file fp zc cat p db).raised = false := by
  unfold process_file
  rw [if_neg hcat]
  split <;> exact ⟨rfl, rfl⟩

theorem mem_cards_mergeCardRow {db : DB} {c' c : CardRow}
    (h : c ∈ (mergeCardRow db c').cards) : c ∈ db.cards ∨ c = c' := by
  unfold mergeCardRow at h
  split at h
  · simp only [List.mem_map] at h
    rcases h with ⟨y, hy, heq⟩
    by_cases hcase : y.uuid = c'.uuid
    · right; rw [if_pos hcase] at heq; exact heq.symm
    · left; rw [if_neg hcase] at heq; exact heq ▸ hy
  · rcases List.mem_append.mp h with hy | hy
    · exact Or.inl hy
    · exact Or.inr (List.mem_singleton.mp hy)

theorem mem_cards_applyCards {db : DB} {code : String} {cds : List CardData} {c : CardRow}
    (h : c ∈ (applyCards db code cds).cards) :
    c ∈ db.cards ∨ ∃ cd ∈ cds, c = cardRowOf code cd := by
  induction cds generalizing db with
  | nil => exact Or.inl h
  | cons cd rest ih =>
    rw [applyCards_cons] at h
    rcases ih h with hin | ⟨cd', hcd', rfl⟩
    · rcases mem_cards_mergeCardRow hin with hdb | rfl
      · exact Or.inl hdb
      · exact Or.inr ⟨cd, by simp, rfl⟩
    · exact Or.inr ⟨cd', by simp [hcd'], rfl⟩

theorem mem_cards_applyData {db : DB} {d : Dataset} {c : CardRow}
    (h : c ∈ (applyData db d).cards) :
    c ∈ db.cards ∨ ∃ p ∈ d, ∃ cd ∈ p.2.cards, c = cardRowOf p.1 cd := by
  induction d generalizing db with
  | nil => exact Or.inl h
  | cons p rest ih =>
    rw [applyData_cons] at h
    rcases ih h with hin | ⟨q, hq, cd, hcd, rfl⟩
    · rw [applyEntry] at hin
      rcases mem_cards_applyCards hin with hmerge | ⟨cd, hcd, rfl⟩
      · rw [mergeSetRow_cards] at hmerge
        exact Or.inl hmerge
      · exact Or.inr ⟨p, by simp, cd, hcd, rfl⟩
    · exact Or.inr ⟨q, by simp [hq], cd, hcd, rfl⟩

theorem code_mem_mergeSetRow_mono {db : DB} {s : SetRow} {k : String}
    (h : ∃ y ∈ db.sets, y.code = k) :
    ∃ y ∈ (mergeSetRow db s).sets, y.code = k := by
  rcases h with ⟨y, hy, hk⟩
  unfold mergeSetRow
  split
  · by_cases hcase : y.code = s.code
    · exact ⟨s, by
        refine List.mem_map.mpr ⟨y, hy, ?_⟩
        rw [if_pos hcase], by rw [← hcase, hk]⟩
    · exact ⟨y, by
        refine List.mem_map.mpr ⟨y, hy, ?_⟩
        rw [if_neg hcase], hk⟩
  · exact ⟨y, List.mem_append_left _ hy, hk⟩

theorem code_mem_mergeSetRow_self (db : DB) (s : SetRow) :
    ∃ y ∈ (mergeSetRow db s).sets, y.code = s.code := by
  unfold mergeSetRow
  split
  · rename_i hex
    rcases hex with ⟨y, hy, hk⟩
    exact ⟨s, List.mem_map.mpr ⟨y, hy, by rw [if_pos hk]⟩, rfl⟩
  · exact ⟨s, List.mem_append_right _ (by simp), rfl⟩

theorem code_mem_applyData_mono {d : Dataset} {db : DB} {k : String}
    (h : ∃ y ∈ db.sets, y.code = k) :
    ∃ y ∈ (applyData db d).sets, y.code = k := by
  induction d generalizing db with
  | nil => exact h
  | cons p rest ih =>
    rw [applyData_cons]
    refine ih ?_
    rw [applyEntry, applyCards_sets]
    exact code_mem_mergeSetRow_mono h

theorem code_mem_applyData_of_data {d : Dataset} {db : DB} {k : String}
    (h : k ∈ dataCodes d) :
    ∃ y ∈ (applyData db d).sets, y.code = k := by
  induction d generalizing db with
  | nil => simp [dataCodes] at h
  | cons p rest ih =>
    rw [dataCodes_cons] at h
    rw [applyData_cons]
    rcases List.mem_cons.mp h with rfl | hrest
    · refine code_mem_applyData_mono ?_
      rw [applyEntry, applyCards_sets]
      exact code_mem_mergeSetRow_self db (setRowOf p.1 p.2)
    · exact ih hrest

theorem guardedAux_cards (code : String) (seen : List String) (cds : List CardData)
    (rest : List Op) (hcode : code ∈ seen) (h : guardedAux seen rest) :
    guardedAux seen ((cds.map fun cd => Op.mcard (cardRowOf code cd)) ++ rest) := by
  induction cds with
  | nil => exact h
  | cons cd tail ih => exact ⟨hcode, ih⟩

theorem guarded_opsOf (d : Dataset) (seen : List String) :
    guardedAux seen (opsOf d) := by
  induction d generalizing seen with
  | nil => simp [opsOf, guardedAux]
  | cons p rest ih =>
    show guardedAux seen (opsOf (p :: rest))
    have hshape : opsOf (p :: rest) =
        Op.mset (setRowOf p.1 p.2) ::
          ((p.2.cards.map fun cd => Op.mcard (cardRowOf p.1 cd)) ++ opsOf rest) := by
      simp [opsOf]
    rw [hshape]
    show guardedAux ((setRowOf p.1 p.2).code :: seen)
      ((p.2.cards.map fun cd => Op.mcard (cardRowOf p.1 cd)) ++ opsOf rest)
    exact guardedAux_cards p.1 _ p.2.cards (opsOf rest) (by simp [setRowOf]) (ih _)

theorem splitFirstAux_eq_none_iff (sep : Char) (cs : List Char) :
    splitFirstAux sep cs = none ↔ sep ∉ cs := by
  induction cs with
  | nil => simp [splitFirstAux]
  | cons c rest ih =>
    unfold splitFirstAux
    by_cases h : c = sep
    · simp [h]
    · simp only [if_neg h, Option.map_eq_none', ih, List.mem_cons]
      constructor
      · rintro hnot (rfl | hmem)
        · exact h rfl
        · exact hnot hmem
      · intro hnot hmem
        exact hnot (Or.inr hmem)

theorem processLine_classify (raw : String) :
    (processLine raw = LineAction.warn ↔ isMalformedLine raw = true) ∧
    ((∃ c u, processLine raw = LineAction.work c u) ↔ isValidLine raw = true) := by
  unfold processLine isMalformedLine isValidLine
  by_cases h1 : pyStrip raw = ""
  · simp [h1]
  · rw [if_neg h1]
    by_cases h2 : (pyStrip raw).data.head? = some '#'
    · simp [h1, h2]
    · rw [if_neg h2]
      rcases h3 : splitFirstAux ',' (pyStrip raw).data with _ | p
      · have hmem : ',' ∉ (pyStrip raw).data := (splitFirstAux_eq_none_iff _ _).mp h3
        simp [h1, h2, hmem]
      · have hmem : ',' ∈ (pyStrip raw).data := by
          by_contra hc
          rw [← splitFirstAux_eq_none_iff ',' (pyStrip raw).data] at hc
          rw [h3] at hc
          exact Option.noConfusion hc
        simp [h1, h2, hmem]

theorem download_lines_aux (lines : List String) (items : List (String × String)) (n : Nat) :
    (lines.foldl downloadStep (items, n)).1.length = items.length + lines.countP isValidLine ∧
    (lines.foldl downloadStep (items, n)).2 = n + lines.countP isMalformedLine := by
  induction lines generalizing items n with
  | nil => simp
  | cons raw rest ih =>
    rw [List.foldl_cons]
    cases hline : processLine raw with
    | skip =>
      have hv : isValidLine raw = false := by
        rcases hvb : isValidLine raw with _ | _
        · rfl
        · rcases (processLine_classify raw).2.mpr hvb with ⟨c, u, hw⟩
          rw [hline] at hw
          exact LineAction.noConfusion hw
      have hm : isMalformedLine raw = false := by
        rcases hmb : isMalformedLine raw with _ | _
        · rfl
        · have := (processLine_classify raw).1.mpr hmb
          rw [hline] at this
          exact LineAction.noConfusion this
      rw [List.countP_cons_of_neg _ _ (by rw [hv]; exact Bool.false_ne_true),
          List.countP_cons_of_neg _ _ (by rw [hm]; exact Bool.false_ne_true)]
      have hstep : downloadStep (items, n) raw = (items, n) := by
        unfold downloadStep
        rw [hline]
      rw [hstep]
      exact ih items n
    | warn =>
      have hm : isMalformedLine raw = true := (processLine_classify raw).1.mp hline
      have hv : isValidLine raw = false := by
        rcases hvb : isValidLine raw with _ | _
        · rfl
        · rcases (processLine_classify raw).2.mpr hvb with ⟨c, u, hw⟩
          rw [hline] at hw
          exact LineAction.noConfusion hw
      rw [List.countP_cons_of_neg _ _ (by rw [hv]; exact Bool.false_ne_true),
          List.countP_cons_of_pos _ _ hm]
      have hstep : downloadStep (items, n) raw = (items, n + 1) := by
        unfold downloadStep
        rw [hline]
      rw [hstep]
      rcases ih items (n + 1) with ⟨ha, hb⟩
      refine ⟨ha, ?_⟩
      rw [hb]
      omega
    | work c u =>
      have hv : isValidLine raw = true := (processLine_classify raw).2.mp ⟨c, u, hline⟩
      have hm : isMalformedLine raw = false := by
        rcases hmb : isMalformedLine raw with _ | _
        · rfl
        · have := (processLine_classify raw).1.mpr hmb
          rw [hline] at this
          exact LineAction.noConfusion this
      rw [List.countP_cons_of_pos _ _ hv,
          List.countP_cons_of_neg _ _ (by rw [hm]; exact Bool.false_ne_true)]
      have hstep : downloadStep (items, n) raw = (items ++ [(c, u)], n) := by
        unfold downloadStep
        rw [hline]
      rw [hstep]
      rcases ih (items ++ [(c, u)]) n with ⟨ha, hb⟩
      refine ⟨?_, hb⟩
      rw [ha]
      simp
      omega

theorem foldl_applyOp_opsOf (d : Dataset) (db : DB) :
    (opsOf d).foldl applyOp db = applyData db d := by
  induction d generalizing db with
  | nil => rfl
  | cons p rest ih =>
    have hshape : opsOf (p :: rest) =
        Op.mset (setRowOf p.1 p.2) ::
          ((p.2.cards.map fun cd => Op.mcard (cardRowOf p.1 cd)) ++ opsOf rest) := by
      simp [opsOf]
    rw [hshape, List.foldl_cons, List.foldl_append, List.foldl_map]
    rw [applyData_cons]
    exact ih _

theorem linkStep_append (base : String) (acc : List LinkRow) (ep : MetaEndpoint) :
    linkStep base acc ep = acc ++ linkStep base [] ep := by
  unfold linkStep
  rcases ep.path with _ | p
  · simp
  · by_cases hp : p = ""
    · simp [hp]
    · simp [hp]

theorem fetch_foldl_acc (base : String) (eps : List MetaEndpoint) (acc : List LinkRow) :
    eps.foldl (linkStep base) acc = acc ++ eps.foldl (linkStep base) [] := by
  induction eps generalizing acc with
  | nil => simp
  | cons ep rest ih =>
    rw [List.foldl_cons, List.foldl_cons, ih (linkStep base acc ep),
        ih (linkStep base [] ep), linkStep_append base acc ep, List.append_assoc]

theorem fetch_length (base : String) (eps : List MetaEndpoint) :
    (fetch_mtgjson_files base eps).length =
      2 * eps.countP (fun ep => !(ep.path.getD "" == "")) := by
  induction eps with
  | nil => rfl
  | cons ep rest ih =>
    unfold fetch_mtgjson_files at ih ⊢
    rw [List.foldl_cons, fetch_foldl_acc, List.length_append, ih]
    rcases hp : ep.path with _ | p
    · rw [List.countP_cons_of_neg _ _ (by simp [hp])]
      simp [linkStep, hp]
    · by_cases hpe : p = ""
      · rw [List.countP_cons_of_neg _ _ (by simp [hp, hpe])]
        simp [linkStep, hp, hpe]
      · rw [List.countP_cons_of_pos _ _ (by simp [hp, hpe])]
        simp [linkStep, hp, hpe]
        omega

/-- C1 (counterexample): the claim says a mid-parse failure during the
canonical ingest leaves the committed store identical to the state before
the ingestion began. Starting from a store holding the set LEA and running
process_file on the canonical category with a payload whose parse fails,
the exception escapes and the committed store is not the prior state: the
clear of the tables was already committed on its own. -/
theorem C1_counterexample :
    (process_file "AllPrintings.json" [] "AllPrintings" none
        ⟨[⟨"LEA", some "Alpha", some "1993-08-05"⟩], []⟩).raised = true ∧
    (process_file "AllPrintings.json" [] "AllPrintings" none
        ⟨[⟨"LEA", some "Alpha", some "1993-08-05"⟩], []⟩).db ≠
      ⟨[⟨"LEA", some "Alpha", some "1993-08-05"⟩], []⟩ := by
  decide

/-- C1 (amended): for the canonical category, the clear of the Set/Card
tables is committed in its own transaction before parsing starts, so a
mid-parse failure (malformed JSON) leaves the committed store empty -
whatever it held before - and no cleanup runs; only the repopulation
itself is a single commit, which the parse failure reaches never. -/
theorem C1_midparse_failure_leaves_store_cleared (fp : String) (zc : List String)
    (cat : String) (db : DB) (hcat : pyLower cat = "allprintings")
    (hj : jsonReady fp zc = true) :
    process_file fp zc cat none db = ⟨emptyDB, true, false, false⟩ :=
  process_file_canonical_fail fp zc cat db hcat hj

/-- C1 (witness): the amended theorem applied to a concrete nonempty store. -/
theorem C1_witness :
    pyLower "AllPrintings" = "allprintings" ∧
    jsonReady "AllPrintings.json" [] = true ∧
    process_file "AllPrintings.json" [] "AllPrintings" none ⟨[⟨"LEA", none, none⟩], []⟩ =
      ⟨emptyDB, true, false, false⟩ :=
  ⟨by decide, by decide,
    C1_midparse_failure_leaves_store_cleared "AllPrintings.json" [] "AllPrintings"
      ⟨[⟨"LEA", none, none⟩], []⟩ (by decide) (by decide)⟩

/-- C2 (confirmed): full-replace invariant. Ingesting canonical dataset D1
and then canonical dataset D2 (valid: unique set codes and card uuids)
leaves the store holding exactly the set rows and card rows of D2, in
payload order - nothing of D1 survives, whatever the starting store was. -/
theorem C2_full_replace (fp1 fp2 cat1 cat2 : String) (zc1 zc2 : List String)
    (d1 d2 : Dataset) (db0 : DB)
    (hcat1 : pyLower cat1 = "allprintings") (hcat2 : pyLower cat2 = "allprintings")
    (hj1 : jsonReady fp1 zc1 = true) (hj2 : jsonReady fp2 zc2 = true)
    (hv : validDataset d2) :
    (process_file fp2 zc2 cat2 (some d2)
        (process_file fp1 zc1 cat1 (some d1) db0).db).db =
      ⟨d2.map (fun p => setRowOf p.1 p.2),
       d2.flatMap (fun p => p.2.cards.map (cardRowOf p.1))⟩ := by
  rw [process_file_canonical fp1 zc1 cat1 d1 db0 hcat1 hj1,
      process_file_canonical fp2 zc2 cat2 d2 _ hcat2 hj2]
  exact applyData_of_valid d2 hv

/-- C2 (witness): the theorem applied to two concrete one-set datasets. -/
theorem C2_witness :
    validDataset [("BBB", ⟨some "Beta", some "1993-10-04",
        [⟨some "u2", some "Bolt", some "Instant", some "common", some "3 damage"⟩]⟩)] ∧
    (process_file "B.json" [] "allprintings"
        (some [("BBB", ⟨some "Beta", some "1993-10-04",
            [⟨some "u2", some "Bolt", some "Instant", some "common", some "3 damage"⟩]⟩)])
        (process_file "A.json" [] "AllPrintings"
            (some [("AAA", ⟨some "Alpha", some "1993-08-05",
                [⟨some "u1", some "Lotus", some "Artifact", some "rare", none⟩]⟩)])
            emptyDB).db).db =
      ⟨[⟨"BBB", some "Beta", some "1993-10-04"⟩],
       [⟨some "u2", some "Bolt", some "Instant", some "common", some "3 damage", "BBB"⟩]⟩ :=
  ⟨by decide,
    C2_full_replace "A.json" "B.json" "AllPrintings" "allprintings" [] []
      [("AAA", ⟨some "Alpha", some "1993-08-05",
          [⟨some "u1", some "Lotus", some "Artifact", some "rare", none⟩]⟩)]
      [("BBB", ⟨some "Beta", some "1993-10-04",
          [⟨some "u2", some "Bolt", some "Instant", some "common", some "3 damage"⟩]⟩)]
      emptyDB (by decide) (by decide) (by decide) (by decide) (by decide)⟩

/-- C3 (confirmed): idempotent ingest. Running the canonical ingest twice
with the same dataset leaves the store exactly as after the first run, and
the store never holds two rows with the same primary key (set code or card
uuid), because rows are upserted by key into a store that the canonical
path first cleared. -/
theorem C3_idempotent_upsert (fp fp' cat cat' : String) (zc zc' : List String)
    (d : Dataset) (db : DB)
    (hcat : pyLower cat = "allprintings") (hcat' : pyLower cat' = "allprintings")
    (hj : jsonReady fp zc = true) (hj' : jsonReady fp' zc' = true) :
    (process_file fp' zc' cat' (some d)
        (process_file fp zc cat (some d) db).db).db =
      (process_file fp zc cat (some d) db).db ∧
    (((process_file fp zc cat (some d) db).db.sets.map SetRow.code).Nodup ∧
      ((process_file fp zc cat (some d) db).db.cards.map CardRow.uuid).Nodup) := by
  rw [process_file_canonical fp zc cat d db hcat hj]
  rw [process_file_canonical fp' zc' cat' d _ hcat' hj']
  refine ⟨rfl, ?_⟩
  exact nodup_applyData d emptyDB (by simp [emptyDB]) (by simp [emptyDB])

/-- C3 (witness): the theorem applied to a concrete dataset, re-ingested
with a differently-cased category name. -/
theorem C3_witness :
    (process_file "A.json" [] "ALLPRINTINGS"
        (some [("AAA", ⟨some "Alpha", none, [⟨some "u1", none, none, none, none⟩]⟩)])
        (process_file "A.json" [] "allprintings"
            (some [("AAA", ⟨some "Alpha", none, [⟨some "u1", none, none, none, none⟩]⟩)])
            ⟨[⟨"OLD", none, none⟩], []⟩).db).db =
      (process_file "A.json" [] "allprintings"
          (some [("AAA", ⟨some "Alpha", none, [⟨some "u1", none, none, none, none⟩]⟩)])
          ⟨[⟨"OLD", none, none⟩], []⟩).db ∧
    (((process_file "A.json" [] "allprintings"
        (some [("AAA", ⟨some "Alpha", none, [⟨some "u1", none, none, none, none⟩]⟩)])
        ⟨[⟨"OLD", none, none⟩], []⟩).db.sets.map SetRow.code).Nodup ∧
      ((process_file "A.json" [] "allprintings"
          (some [("AAA", ⟨some "Alpha", none, [⟨some "u1", none, none, none, none⟩]⟩)])
          ⟨[⟨"OLD", none, none⟩], []⟩).db.cards.map CardRow.uuid).Nodup) :=
  C3_idempotent_upsert "A.json" "A.json" "allprintings" "ALLPRINTINGS" [] []
    [("AAA", ⟨some "Alpha", none, [⟨some "u1", none, none, none, none⟩]⟩)]
    ⟨[⟨"OLD", none, none⟩], []⟩ (by decide) (by decide) (by decide) (by decide)

/-- C4 (counterexample): the claim says the two descriptors for the path
/api/v5/Foo carry identifiers Foo.json and Foo.json.zip with file types
dataset and archive. The code builds identifiers from the whole path
(/api/v5/Foo.json, /api/v5/Foo.json.zip) and file types json and zip; the
bare suffix Foo becomes the category field instead. -/
theorem C4_counterexample :
    (fetch_mtgjson_files "https://mtgjson.com" [⟨some "/api/v5/Foo", ""⟩]).map LinkRow.id ≠
      ["Foo.json", "Foo.json.zip"] ∧
    (fetch_mtgjson_files "https://mtgjson.com" [⟨some "/api/v5/Foo", ""⟩]).map LinkRow.file_type ≠
      ["dataset", "archive"] ∧
    (fetch_mtgjson_files "https://mtgjson.com" [⟨some "/api/v5/Foo", ""⟩]).map LinkRow.id =
      ["/api/v5/Foo.json", "/api/v5/Foo.json.zip"] ∧
    (fetch_mtgjson_files "https://mtgjson.com" [⟨some "/api/v5/Foo", ""⟩]).map LinkRow.file_type =
      ["json", "zip"] ∧
    (fetch_mtgjson_files "https://mtgjson.com" [⟨some "/api/v5/Foo", ""⟩]).map LinkRow.category =
      ["Foo", "Foo"] := by
  decide

/-- C4 (amended): every described path with a non-falsy path string yields
exactly two descriptors - identifiers equal to the full path plus .json
and .json.zip, file types json and zip, category equal to the URL suffix
(last path component), and urls equal to the base joined with the
identifier; over a whole metadata document the synchronizer produces
exactly two descriptors per usable path entry. -/
theorem C4_catalog_descriptors (base p desc : String) (eps : List MetaEndpoint)
    (hp : p ≠ "") :
    fetch_mtgjson_files base [⟨some p, desc⟩] =
      [⟨p ++ ".json", lastComponent p, base ++ p ++ ".json", "json", desc⟩,
       ⟨p ++ ".json.zip", lastComponent p, base ++ p ++ ".json.zip", "zip", desc⟩] ∧
    (fetch_mtgjson_files base eps).length =
      2 * eps.countP (fun ep => !(ep.path.getD "" == "")) := by
  refine ⟨?_, fetch_length base eps⟩
  unfold fetch_mtgjson_files
  rw [List.foldl_cons, List.foldl_nil]
  unfold linkStep
  simp [hp]

/-- C4 (witness): the amended theorem applied to the path /api/v5/Foo and
a document with one usable path, one missing path and one empty path. -/
theorem C4_witness :
    "/api/v5/Foo" ≠ "" ∧
    (fetch_mtgjson_files "https://mtgjson.com" [⟨some "/api/v5/Foo", "all cards"⟩] =
      [⟨"/api/v5/Foo.json", lastComponent "/api/v5/Foo",
        "https://mtgjson.com" ++ "/api/v5/Foo" ++ ".json", "json", "all cards"⟩,
       ⟨"/api/v5/Foo.json.zip", lastComponent "/api/v5/Foo",
        "https://mtgjson.com" ++ "/api/v5/Foo" ++ ".json.zip", "zip", "all cards"⟩] ∧
    (fetch_mtgjson_files "https://mtgjson.com"
        [⟨some "/api/v5/Foo", "all cards"⟩, ⟨none, "no path"⟩, ⟨some "", "empty"⟩]).length =
      2 * List.countP (fun ep => !(ep.path.getD "" == ""))
        ([⟨some "/api/v5/Foo", "all cards"⟩, ⟨none, "no path"⟩, ⟨some "", "empty"⟩] :
          List MetaEndpoint)) :=
  ⟨by decide,
    C4_catalog_descriptors "https://mtgjson.com" "/api/v5/Foo" "all cards"
      [⟨some "/api/v5/Foo", "all cards"⟩, ⟨none, "no path"⟩, ⟨some "", "empty"⟩]
      (by decide)⟩

/-- C5 (counterexample): the claim quantifies over every destination whose
local file is at least as new as the remote's advertised last-modified
time. A local file with modification time 0 (the epoch) and a remote
last-modified of 0 satisfies that, yet the code downloads: the guard
existing_time and not force_update treats the falsy mtime 0.0 as if no
local file existed, so a GET is issued and the file is removed and
rewritten. -/
theorem C5_counterexample :
    ((0 : Int) ≤ 0) ∧
    download_file (some 0) false (HeadOutcome.modified 0) GetOutcome.ok =
      ⟨true, true, true, true⟩ := by
  decide

/-- C5 (amended): for every destination whose local file has a nonzero
modification time at least the remote's advertised last-modified time,
download_file with force off issues no GET, removes nothing, writes
nothing, and returns the not-downloaded outcome, whatever the GET would
have produced. -/
theorem C5_freshness_short_circuit (t rt : Int) (g : GetOutcome)
    (h0 : t ≠ 0) (hle : rt ≤ t) :
    download_file (some t) false (HeadOutcome.modified rt) g =
      ⟨false, false, false, false⟩ := by
  have hskip : freshSkip (some t) false (HeadOutcome.modified rt) = true := by
    show (if t = 0 then false else decide (rt ≤ t)) = true
    rw [if_neg h0]
    exact decide_eq_true hle
  unfold download_file
  rw [hskip]
  rfl

/-- C5 (witness): the amended theorem applied to a local file from
timestamp 5 against a remote last modified at timestamp 3. -/
theorem C5_witness :
    ((5 : Int) ≠ 0) ∧ ((3 : Int) ≤ 5) ∧
    download_file (some 5) false (HeadOutcome.modified 3) GetOutcome.ok =
      ⟨false, false, false, false⟩ :=
  ⟨by decide, by decide,
    C5_freshness_short_circuit 5 3 GetOutcome.ok (by decide) (by decide)⟩

/-- C6 (counterexample): the claim says the skipped and failed outcomes are
distinguishable by the caller. The function returns a single boolean; a
run that skips because the local copy is current and a run whose GET fails
in transport both return false, so the caller cannot tell them apart
(download_task indeed prints "Using existing file" for both). -/
theorem C6_counterexample :
    (download_file (some 5) false (HeadOutcome.modified 3) GetOutcome.ok).ret =
      (download_file none false HeadOutcome.fail GetOutcome.fail).ret ∧
    (download_file (some 5) false (HeadOutcome.modified 3) GetOutcome.ok).ret = false := by
  decide

/-- C6 (amended): download_file returns true exactly when a GET was issued
and succeeded; when it does not reach the GET it performs no effect at
all, and on transport failure it removes and writes nothing and returns
false - the same value as the skipped case, so the caller distinguishes
downloaded from not-downloaded but not skipped from failed, and no
exception escapes (the embedding is a total function). -/
theorem C6_outcome_collapse (l : Option Int) (f : Bool) (h : HeadOutcome) (g : GetOutcome) :
    (download_file l f h g).ret = ((download_file l f h g).didGet && g.isOk) ∧
    ((download_file l f h g).didGet = false →
      download_file l f h g = ⟨false, false, false, false⟩) ∧
    (g = GetOutcome.fail →
      (download_file l f h g).removed = false ∧ (download_file l f h g).written = false) := by
  unfold download_file
  rcases hs : freshSkip l f h with _ | _ <;> cases g <;> simp [GetOutcome.isOk]

/-- C6 (witness): the amended theorem applied to a concrete failing run. -/
theorem C6_witness :
    (download_file (some 7) true HeadOutcome.noHeader GetOutcome.fail).ret =
      ((download_file (some 7) true HeadOutcome.noHeader GetOutcome.fail).didGet &&
        GetOutcome.fail.isOk) ∧
    ((download_file (some 7) true HeadOutcome.noHeader GetOutcome.fail).didGet = false →
      download_file (some 7) true HeadOutcome.noHeader GetOutcome.fail =
        ⟨false, false, false, false⟩) ∧
    (GetOutcome.fail = GetOutcome.fail →
      (download_file (some 7) true HeadOutcome.noHeader GetOutcome.fail).removed = false ∧
      (download_file (some 7) true HeadOutcome.noHeader GetOutcome.fail).written = false) :=
  C6_outcome_collapse (some 7) true HeadOutcome.noHeader GetOutcome.fail

/-- C7 (counterexample): the claim says every line without exactly one
separator is warned about and skipped. The line a,b,c has two separators,
yet the code splits at the first comma and spawns the work item
(a, b,c) instead of warning. -/
theorem C7_counterexample :
    processLine "a,b,c" = LineAction.work "a" "b,c" ∧
    processLine "a,b,c" ≠ LineAction.warn := by
  decide

/-- C7 (amended): blank lines and lines starting with '#' (after
stripping) produce no work item and no warning; every other line with at
least one separator produces exactly one work item, split at the first
separator with both parts stripped; every other line with no separator is
warned about and skipped, never aborting the batch - in particular a file
of 5 valid and 3 separator-less lines yields exactly 5 work items and 3
warnings. -/
theorem C7_list_file_parsing :
    (∀ lines : List String,
        (download_lines lines).1.length = lines.countP isValidLine ∧
        (download_lines lines).2 = lines.countP isMalformedLine) ∧
    download_lines
        ["AllPrintings, https://a.json", "", "# note", "bad",
         "Tokens , https://b.json", "worse", "Foo,https://c",
         "Bar, https://d", "ugh", "Baz,https://e"] =
      ([("AllPrintings", "https://a.json"), ("Tokens", "https://b.json"),
        ("Foo", "https://c"), ("Bar", "https://d"), ("Baz", "https://e")], 3) := by
  constructor
  · intro lines
    have := download_lines_aux lines [] 0
    simpa [download_lines] using this
  · decide

/-- C8 (confirmed): referential integrity during canonical ingest. In the
merge-operation trace of process_allprintings every card merge is preceded
by a set merge bearing the card's set_code, and in the committed store
after a canonical process_file run every card row's set_code references a
set row that exists in the same store. -/
theorem C8_referential_integrity (fp cat : String) (zc : List String)
    (d : Dataset) (db : DB)
    (hcat : pyLower cat = "allprintings") (hj : jsonReady fp zc = true) :
    guardedAux [] (opsOf d) ∧
    ∀ c ∈ (process_file fp zc cat (some d) db).db.cards,
      ∃ s ∈ (process_file fp zc cat (some d) db).db.sets, s.code = c.set_code := by
  refine ⟨guarded_opsOf d [], ?_⟩
  rw [process_file_canonical fp zc cat d db hcat hj]
  intro c hc
  rcases mem_cards_applyData hc with habs | ⟨p, hp, cd, hcd, rfl⟩
  · simp [emptyDB] at habs
  · exact code_mem_applyData_of_data (List.mem_map_of_mem Prod.fst hp)

/-- C8 (witness): the theorem applied to a one-set, one-card dataset and
the concrete card row it stores. -/
theorem C8_witness :
    guardedAux []
      (opsOf [("AAA", ⟨some "Alpha", none, [⟨some "u1", none, none, none, none⟩]⟩)]) ∧
    ∃ s ∈ (process_file "A.json" [] "allprintings"
        (some [("AAA", ⟨some "Alpha", none, [⟨some "u1", none, none, none, none⟩]⟩)])
        emptyDB).db.sets,
      s.code = (⟨some "u1", none, none, none, none, "AAA"⟩ : CardRow).set_code :=
  ⟨(C8_referential_integrity "A.json" "allprintings" []
      [("AAA", ⟨some "Alpha", none, [⟨some "u1", none, none, none, none⟩]⟩)]
      emptyDB (by decide) (by decide)).1,
   (C8_referential_integrity "A.json" "allprintings" []
      [("AAA", ⟨some "Alpha", none, [⟨some "u1", none, none, none, none⟩]⟩)]
      emptyDB (by decide) (by decide)).2
     ⟨some "u1", none, none, none, none, "AAA"⟩ (by decide)⟩

/-- C9 (confirmed): category dispatch is case-insensitive. Whenever the
lowercased category equals allprintings, process_file behaves exactly as
for the literal category allprintings (the canonical clear-and-ingest);
for any category whose lowercase form differs, the store is left unchanged
and no exception escapes. -/
theorem C9_case_insensitive_dispatch (fp : String) (zc : List String) (cat : String)
    (p : Option Dataset) (db : DB) :
    (pyLower cat = "allprintings" →
      process_file fp zc cat p db = process_file fp zc "allprintings" p db) ∧
    (pyLower cat ≠ "allprintings" →
      (process_file fp zc cat p db).db = db ∧
      (process_file fp zc cat p db).raised = false) := by
  constructor
  · intro hcat
    have hlit : pyLower "allprintings" = "allprintings" := by decide
    unfold process_file
    rw [hcat, hlit]
  · exact process_file_other fp zc cat p db

/-- C9 (witness): the dispatch equivalence at category ALLPRINTINGS and
the frame at category Tokens, on concrete stores. -/
theorem C9_witness :
    process_file "A.json" [] "ALLPRINTINGS" none ⟨[⟨"OLD", none, none⟩], []⟩ =
      process_file "A.json" [] "allprintings" none ⟨[⟨"OLD", none, none⟩], []⟩ ∧
    ((process_file "A.json" [] "Tokens" none ⟨[⟨"OLD", none, none⟩], []⟩).db =
        ⟨[⟨"OLD", none, none⟩], []⟩ ∧
      (process_file "A.json" [] "Tokens" none ⟨[⟨"OLD", none, none⟩], []⟩).raised = false) :=
  ⟨(C9_case_insensitive_dispatch "A.json" [] "ALLPRINTINGS" none
      ⟨[⟨"OLD", none, none⟩], []⟩).1 (by decide),
   (C9_case_insensitive_dispatch "A.json" [] "Tokens" none
      ⟨[⟨"OLD", none, none⟩], []⟩).2 (by decide)⟩

/-- C10 (counterexample): the claim says every unimplemented-category run
still deletes the downloaded file. For an archive that contains no .json
member, process_file returns early before the category dispatch and the
cleanup never runs: nothing is deleted (and the store is untouched). -/
theorem C10_counterexample :
    pyLower "Tokens" ≠ "allprintings" ∧
    (process_file "x.zip" ["readme.txt"] "Tokens" (some []) ⟨[⟨"OLD", none, none⟩], []⟩).removed_file
      = false ∧
    (process_file "x.zip" ["readme.txt"] "Tokens" (some []) ⟨[⟨"OLD", none, none⟩], []⟩).removed_extracted
      = false ∧
    (process_file "x.zip" ["readme.txt"] "Tokens" (some []) ⟨[⟨"OLD", none, none⟩], []⟩).db =
      ⟨[⟨"OLD", none, none⟩], []⟩ := by
  decide

/-- C10 (amended): for every category whose lowercase form is not
allprintings, process_file leaves the Set and Card tables completely
unchanged and raises nothing; when the artifact is usable (not an archive,
or an archive with a JSON member) cleanup still deletes the downloaded
file, and the extracted member exactly when the artifact is an archive;
but an archive with no JSON member returns early and deletes nothing. -/
theorem C10_unimplemented_category_frame (fp : String) (zc : List String) (cat : String)
    (p : Option Dataset) (db : DB) (hcat : pyLower cat ≠ "allprintings") :
    (process_file fp zc cat p db).db = db ∧
    (process_file fp zc cat p db).raised = false ∧
    (jsonReady fp zc = true →
      (process_file fp zc cat p db).removed_file = true ∧
      (process_file fp zc cat p db).removed_extracted = pyEndsWith fp ".zip") ∧
    (jsonReady fp zc = false →
      (process_file fp zc cat p db).removed_file = false ∧
      (process_file fp zc cat p db).removed_extracted = false) := by
  obtain ⟨h1, h2⟩ := process_file_other fp zc cat p db hcat
  refine ⟨h1, h2, ?_, ?_⟩
  · intro hj
    unfold process_file
    rw [(jsonReady_iff fp zc).mp hj]
    simp only [Bool.false_eq_true, if_false]
    rw [if_neg hcat]
    exact ⟨rfl, rfl⟩
  · intro hj
    have hcond : (pyEndsWith fp ".zip" &&
        (zc.filter (fun f => pyEndsWith f ".json")).isEmpty) = true := by
      rcases hb : (pyEndsWith fp ".zip" &&
          (zc.filter (fun f => pyEndsWith f ".json")).isEmpty) with _ | _
      · rw [(jsonReady_iff fp zc).mpr hb] at hj
        exact Bool.noConfusion hj
      · rfl
    unfold process_file
    rw [hcond]
    exact ⟨rfl, rfl⟩

/-- C10 (witness): the amended theorem applied to a plain JSON artifact
under category Tokens on a concrete nonempty store. -/
theorem C10_witness :
    pyLower "Tokens" ≠ "allprintings" ∧
    ((process_file "f.json" [] "Tokens" none ⟨[⟨"OLD", none, none⟩], []⟩).db =
        ⟨[⟨"OLD", none, none⟩], []⟩ ∧
      (process_file "f.json" [] "Tokens" none ⟨[⟨"OLD", none, none⟩], []⟩).raised = false ∧
      (jsonReady "f.json" [] = true →
        (process_file "f.json" [] "Tokens" none ⟨[⟨"OLD", none, none⟩], []⟩).removed_file = true ∧
        (process_file "f.json" [] "Tokens" none ⟨[⟨"OLD", none, none⟩], []⟩).removed_extracted =
          pyEndsWith "f.json" ".zip") ∧
      (jsonReady "f.json" [] = false →
        (process_file "f.json" [] "Tokens" none ⟨[⟨"OLD", none, none⟩], []⟩).removed_file = false ∧
        (process_file "f.json" [] "Tokens" none ⟨[⟨"OLD", none, none⟩], []⟩).removed_extracted =
          false)) :=
  ⟨by decide,
    C10_unimplemented_category_frame "f.json" [] "Tokens" none
      ⟨[⟨"OLD", none, none⟩], []⟩ (by decide)⟩
